import Mathlib

/-!
# Verification of the CSV metadata generator

Shallow embedding of the core of the `csv_metadata_generator` repository:
the keyword normalizer (`src/app/lib/keyword-normalizer.ts`), the CSV
generator (`src/app/lib/csv-generator.ts`), the batch orchestrator with
multi-key rotation (`src/app/page.tsx`), and the model resolver
(`src/app/lib/model-resolver.ts`).  Strings are modelled as `List Char`
(JavaScript strings), `toLowerCase` as the basic-latin lowering (the
inputs of interest are ASCII), `trim` as removal of leading and trailing
whitespace, and thrown JavaScript exceptions as explicit sum types.
-/

namespace CsvMeta

/-! ## Definitions: shallow embedding of the source -/

/-- Whitespace as recognised by `String.prototype.trim`
(restricted to the common ASCII whitespace characters). -/
def isJsSpace (c : Char) : Bool :=
  c = ' ' || c = '\t' || c = '\n' || c = '\r'

/-- `s.trim()` on a JavaScript string: drop whitespace from both ends. -/
def jsTrim (s : List Char) : List Char :=
  ((s.dropWhile isJsSpace).reverse.dropWhile isJsSpace).reverse

/-- `s.toLowerCase()` (basic-latin letters). -/
def jsToLower (s : List Char) : List Char :=
  s.map Char.toLower

/-- `hay.includes(needle)`: substring containment test. -/
def jsIncludes (needle : List Char) : List Char → Bool
  | [] => needle.isEmpty
  | c :: rest => needle.isPrefixOf (c :: rest) || jsIncludes needle rest

/-- `normalizeKeyword`: trim, lowercase, and drop the keyword if it became
empty (`null` in the source). -/
def normalizeKeyword (keyword : List Char) : Option (List Char) :=
  let normalized := jsToLower (jsTrim keyword)
  if normalized.length > 0 then some normalized else none

/-- Helper for `Array.from(new Set(...))`: keep the first occurrence of
each element, tracking what has been seen. -/
def dedupeAux (seen : List (List Char)) : List (List Char) → List (List Char)
  | [] => []
  | k :: ks => if k ∈ seen then dedupeAux seen ks else k :: dedupeAux (k :: seen) ks

/-- `Array.from(new Set(xs))`: deduplicate preserving first-seen order. -/
def setDedupe (xs : List (List Char)) : List (List Char) :=
  dedupeAux [] xs

/-- `normalizeKeywords`: map `normalizeKeyword`, drop the nulls, then
deduplicate via a `Set`. -/
def normalizeKeywords (keywords : List (List Char)) : List (List Char) :=
  setDedupe (keywords.filterMap normalizeKeyword)

/-- `joinKeywords`: `keywords.join(', ')`. -/
def joinKeywords (keywords : List (List Char)) : List Char :=
  (keywords.intersperse (", ".toList)).flatten

/-- `processKeywords` returns the comma-joined normalized keywords in its
`normalized` field (`src/app/lib/keyword-normalizer.ts`). -/
def processKeywordsNormalized (rawKeywords : List (List Char)) : List Char :=
  joinKeywords (normalizeKeywords rawKeywords)

/-- Generation status of a row (`src/app/types/index.ts`). -/
inductive Status where
  | pending
  | generating
  | success
  | error
deriving DecidableEq, Repr

/-- One image row (`src/app/types/index.ts`), restricted to the fields the
orchestrator and the CSV generator read or write.  `hasFile` models
presence of the optional `file` object; `keywords` is the comma-joined
keyword string; `errorMsg` models the optional `error` field. -/
structure ImageRow where
  id : List Char
  hasFile : Bool
  filename : List Char
  title : List Char
  description : List Char
  keywords : List Char
  status : Status
  errorMsg : Option (List Char)
  selected : Bool
deriving DecidableEq, Repr

/-- `xs.join(sep)` on a JavaScript array of strings. -/
def joinWith (sep : List Char) (xs : List (List Char)) : List Char :=
  (xs.intersperse sep).flatten

/-- `replace(/"/g, '""')`: double every double-quote character. -/
def doubleQuotes : List Char → List Char
  | [] => []
  | c :: rest =>
    if c = '"' then '"' :: '"' :: doubleQuotes rest else c :: doubleQuotes rest

/-- `escapeCsvField`: wrap in quotes (doubling embedded quotes) iff the
value contains a comma, a double quote, or a newline. -/
def escapeCsvField (value : List Char) : List Char :=
  if jsIncludes [','] value || jsIncludes ['"'] value || jsIncludes ['\n'] value then
    '"' :: (doubleQuotes value ++ ['"'])
  else value

/-- Column headers, `CSV_COLUMNS` in `src/app/constants/adobe-stock.ts`. -/
def CSV_COLUMNS : List (List Char) :=
  ["Filename".toList, "Title".toList, "Description".toList, "Keywords".toList]

/-- The `CsvRow` record (`src/app/types/index.ts`). -/
structure CsvRow where
  Filename : List Char
  Title : List Char
  Description : List Char
  Keywords : List Char

/-- `row[column]` lookup used by `rowToCsvLine`. -/
def csvRowGet (row : CsvRow) (column : List Char) : List Char :=
  if column = "Filename".toList then row.Filename
  else if column = "Title".toList then row.Title
  else if column = "Description".toList then row.Description
  else row.Keywords

/-- `rowToCsvLine`: escape each column value and join with commas. -/
def rowToCsvLine (row : CsvRow) : List Char :=
  joinWith [','] (CSV_COLUMNS.map fun column => escapeCsvField (csvRowGet row column))

/-- `imageRowToCsvRow`. -/
def imageRowToCsvRow (imageRow : ImageRow) : CsvRow :=
  { Filename := imageRow.filename
    Title := imageRow.title
    Description := imageRow.description
    Keywords := imageRow.keywords }

/-- The validity filter of `generateCsv`: status `success` and truthy,
non-blank title, description and keywords. -/
def rowEligible (row : ImageRow) : Bool :=
  decide (row.status = Status.success)
    && !row.title.isEmpty && decide (0 < (jsTrim row.title).length)
    && !row.description.isEmpty && decide (0 < (jsTrim row.description).length)
    && !row.keywords.isEmpty && decide (0 < (jsTrim row.keywords).length)

/-- `generateCsv`: header plus one escaped line per valid row, or a thrown
`Error` when no row is valid. -/
def generateCsv (imageRows : List ImageRow) : Except (List Char) (List Char) :=
  let validRows := imageRows.filter rowEligible
  if validRows.isEmpty then
    Except.error
      "No valid rows to export. Please generate metadata for at least one image.".toList
  else
    let header := joinWith [','] CSV_COLUMNS
    let csvLines := validRows.map fun row => rowToCsvLine (imageRowToCsvRow row)
    Except.ok (joinWith ['\n'] (header :: csvLines))

/-- RFC 4180 parser for the body of a quoted field (everything after the
opening quote): decodes doubled quotes, stops at the closing quote, and
fails if the field does not end exactly at the closing quote.  This is the
"standard RFC 4180 CSV parse" of the specification, not repository code. -/
def parseQuotedBody : List Char → Option (List Char)
  | [] => none
  | c :: rest =>
    if c = '"' then
      match rest with
      | [] => some []
      | c2 :: rest2 =>
        if c2 = '"' then (parseQuotedBody rest2).map (fun t => '"' :: t) else none
    else (parseQuotedBody rest).map (fun t => c :: t)

/-- RFC 4180 parse of one complete CSV field: a field starting with a
quote is unescaped via `parseQuotedBody`; an unquoted field may not
contain a comma, quote or newline.  This is the specification-side parser
for the round-trip, not repository code. -/
def parseCsvField (s : List Char) : Option (List Char) :=
  match s with
  | [] => some []
  | c :: rest =>
    if c = '"' then parseQuotedBody rest
    else if (c :: rest).any (fun d => d = ',' || d = '"' || d = '\n') then none
    else some (c :: rest)

/-- A concrete successful row whose title is a single space: non-empty,
but blank after trimming. -/
def blankTitleRow : ImageRow :=
  { id := "r1".toList
    hasFile := true
    filename := "img.jpg".toList
    title := " ".toList
    description := "A fine description".toList
    keywords := "alpha, beta".toList
    status := Status.success
    errorMsg := none
    selected := false }

/-- A thrown JavaScript value on the generation path: either a plain
`GeminiApiError` object literal (as thrown by `generateMetadata` for
non-2xx responses — not an `instanceof Error`) or an `Error` instance. -/
inductive JsError where
  | apiError (message : List Char) (code : Option (List Char)) (status : Option Nat)
  | errorInstance (message : List Char)
deriving DecidableEq, Repr

/-- Parsed body of one successful Gemini call (`GeminiResponse`). -/
structure GeminiResponse where
  title : List Char
  description : List Char
  keywords : List (List Char)
deriving DecidableEq, Repr

/-- Result of one `generateMetadata` invocation with a given key: resolves
with a response or rejects with a thrown value. -/
inductive CallOutcome where
  | ok (resp : GeminiResponse)
  | err (e : JsError)
deriving DecidableEq, Repr

/-- The quota check of `generateForRow` (`src/app/page.tsx`): the thrown
value has a `code` property equal to `QUOTA_EXCEEDED`, or is an `Error`
instance whose message contains the substring `429`. -/
def isQuotaError : JsError → Bool
  | JsError.apiError _ code _ => decide (code = some "QUOTA_EXCEEDED".toList)
  | JsError.errorInstance message => jsIncludes "429".toList message

/-- `let errorMessage = 'Failed'; if (lastError instanceof Error)
errorMessage = lastError.message`: plain `GeminiApiError` objects are not
`Error` instances, so only `Error` messages are propagated. -/
def lastErrorMessage : Option JsError → List Char
  | some (JsError.errorInstance m) => m
  | _ => "Failed".toList

/-- How the credential loop of `generateForRow` ended. -/
inductive LoopEnd where
  | succeeded (keyIdx : Nat) (resp : GeminiResponse)
  | threw (e : JsError)
  | exhausted (lastError : Option JsError)
deriving DecidableEq, Repr

/-- The `for (let i = 0; i < keys.length; i++)` loop of `generateForRow`:
`remaining` counts the iterations left, `i` is the loop counter, and the
candidate key index is `(active + i) % n`.  Returns the key indices on
which `generateMetadata` was invoked, in order, and how the loop ended. -/
def tryKeysAux (n active : Nat) (oracle : Nat → CallOutcome)
    (lastError : Option JsError) : Nat → Nat → List Nat × LoopEnd
  | 0, _ => ([], LoopEnd.exhausted lastError)
  | remaining + 1, i =>
    let keyIndexToTry := (active + i) % n
    match oracle keyIndexToTry with
    | CallOutcome.ok resp => ([keyIndexToTry], LoopEnd.succeeded keyIndexToTry resp)
    | CallOutcome.err e =>
      if isQuotaError e then
        let next := tryKeysAux n active oracle (some e) remaining (i + 1)
        (keyIndexToTry :: next.1, next.2)
      else ([keyIndexToTry], LoopEnd.threw e)

/-- The full credential loop, starting at loop counter 0 with
`keys.length` iterations and `lastError = null`. -/
def tryKeys (n active : Nat) (oracle : Nat → CallOutcome) : List Nat × LoopEnd :=
  tryKeysAux n active oracle none n 0

/-- Everything observable about one `generateForRow` call: the row's final
state, the new `activeKeyIndexRef`, whether the promise rejected (and with
what), the key indices invoked, and the successive row statuses. -/
structure ForRowResult where
  row : ImageRow
  active : Nat
  threw : Bool
  thrownError : Option JsError
  calls : List Nat
  statusTrace : List Status
deriving DecidableEq, Repr

/-- `generateForRow` (`src/app/page.tsx` lines 115-188): missing-file
guard, empty-key guard, mark `generating`, round-robin key loop, then on
success record the metadata (keywords from `processKeywords(...).normalized`)
and remember the working key; a non-quota failure rethrows; exhaustion
marks the row `error` citing the key count and rethrows the last error. -/
def generateForRow (keys : List (List Char)) (active : Nat)
    (oracle : Nat → CallOutcome) (row : ImageRow) : ForRowResult :=
  if row.hasFile = false then
    { row := { row with status := Status.error, errorMsg := some "File missing".toList }
      active := active
      threw := false
      thrownError := none
      calls := []
      statusTrace := [row.status, Status.error] }
  else if keys.length = 0 then
    { row := row
      active := active
      threw := true
      thrownError := some (JsError.errorInstance "No API keys found".toList)
      calls := []
      statusTrace := [row.status] }
  else
    let generatingRow := { row with status := Status.generating }
    match tryKeys keys.length active oracle with
    | (tried, LoopEnd.succeeded keyIdx resp) =>
      { row := { generatingRow with
          status := Status.success
          title := resp.title
          description := resp.description
          keywords := processKeywordsNormalized resp.keywords
          errorMsg := none }
        active := keyIdx
        threw := false
        thrownError := none
        calls := tried
        statusTrace := [row.status, Status.generating, Status.success] }
    | (tried, LoopEnd.threw e) =>
      { row := generatingRow
        active := active
        threw := true
        thrownError := some e
        calls := tried
        statusTrace := [row.status, Status.generating] }
    | (tried, LoopEnd.exhausted lastError) =>
      { row := { generatingRow with
          status := Status.error
          errorMsg := some ("All ".toList ++ (toString keys.length).toList
            ++ " keys exhausted or failed. ".toList ++ lastErrorMessage lastError) }
        active := active
        threw := true
        thrownError := lastError
        calls := tried
        statusTrace := [row.status, Status.generating, Status.error] }

/-- The aggregate `GenerationProgress` snapshot. -/
structure Progress where
  total : Nat
  completed : Nat
  failed : Nat
  inProgress : Nat
deriving DecidableEq, Repr

/-- State accumulated by the sequential row loop of `generateBatch`. -/
structure RunState where
  rows : List ImageRow
  active : Nat
  progress : Progress
  trace : List Progress
  results : List Bool
deriving Repr

/-- The `for (const row of queue)` loop of `generateBatch`: each row is
processed by `generateForRow` (threading `activeKeyIndexRef`); a resolved
call increments `completed`, a rejected one increments `failed`, and both
decrement `inProgress`.  `trace` records the snapshot after each row
settles; `results` records the per-row `{success}` flags. -/
def runRows (keys : List (List Char)) :
    Nat → Progress → List (ImageRow × (Nat → CallOutcome)) → RunState
  | active, progress, [] =>
    { rows := [], active := active, progress := progress, trace := [], results := [] }
  | active, progress, (row, oracle) :: rest =>
    let result := generateForRow keys active oracle row
    let progress1 :=
      if result.threw then
        { progress with failed := progress.failed + 1
                        inProgress := progress.inProgress - 1 }
      else
        { progress with completed := progress.completed + 1
                        inProgress := progress.inProgress - 1 }
    let state := runRows keys result.active progress1 rest
    { rows := result.row :: state.rows
      active := state.active
      progress := state.progress
      trace := progress1 :: state.trace
      results := (!result.threw) :: state.results }

/-- Everything observable about one `generateBatch` run. -/
structure BatchResult where
  rows : List ImageRow
  active : Nat
  progressTrace : List Progress
  finalProgress : Progress
  progressAfterDelay : Progress
  succeeded : Nat
  failedCount : Nat
deriving Repr

/-- `generateBatch` (`src/app/page.tsx` lines 190-264): rejected up front
(`none`) when no key is configured or the queue is empty; otherwise the
progress snapshot is initialized from the row count, the rows run strictly
sequentially, and after the batch the snapshot is reset to zero by the
delayed `setProgress`. -/
def generateBatch (keys : List (List Char)) (active : Nat)
    (rowsToGenerate : List (ImageRow × (Nat → CallOutcome))) : Option BatchResult :=
  if keys.length = 0 then none
  else if rowsToGenerate.length = 0 then none
  else
    let initial : Progress :=
      { total := rowsToGenerate.length
        completed := 0
        failed := 0
        inProgress := rowsToGenerate.length }
    let state := runRows keys active initial rowsToGenerate
    some
      { rows := state.rows
        active := state.active
        progressTrace := initial :: state.trace
        finalProgress := state.progress
        progressAfterDelay := { total := 0, completed := 0, failed := 0, inProgress := 0 }
        succeeded := (state.results.filter (fun r => r = true)).length
        failedCount := (state.results.filter (fun r => r = false)).length }

/-- The row status transitions the specification allows. -/
def allowedTransition : Status → Status → Bool
  | Status.pending, Status.generating => true
  | Status.generating, Status.success => true
  | Status.generating, Status.error => true
  | Status.error, Status.generating => true
  | _, _ => false

/-- The quota error object thrown by `generateMetadata` on HTTP 429. -/
def quotaErr : JsError :=
  JsError.apiError "Rate limit exceeded".toList (some "QUOTA_EXCEEDED".toList) (some 429)

def c1Resp : GeminiResponse :=
  { title := "Sunset Over Mountains".toList
    description := "A vivid sunset over a mountain range".toList
    keywords := ["Sky".toList, "sky".toList, "mountain".toList] }

def c1Oracle : Nat → CallOutcome := fun idx =>
  if idx = 2 then CallOutcome.ok c1Resp else CallOutcome.err quotaErr

def c1Row : ImageRow :=
  { id := "row1".toList
    hasFile := true
    filename := "sunset.jpg".toList
    title := []
    description := []
    keywords := []
    status := Status.pending
    errorMsg := none
    selected := true }

def c1Keys : List (List Char) :=
  ["AIzaKeyOne0000000000".toList, "AIzaKeyTwo0000000000".toList,
   "AIzaKeyThree00000000".toList]

def nonQuotaErr : JsError := JsError.apiError "Invalid request".toList none (some 400)

def c2Oracle : Nat → CallOutcome := fun _ => CallOutcome.err nonQuotaErr

def c2Keys : List (List Char) :=
  ["AIzaKeyOne0000000000".toList, "AIzaKeyTwo0000000000".toList]

def c2Row : ImageRow :=
  { id := "row2".toList
    hasFile := true
    filename := "beach.jpg".toList
    title := []
    description := []
    keywords := []
    status := Status.pending
    errorMsg := none
    selected := true }

def c3Err : JsError :=
  JsError.errorInstance "Request failed with status 429: rate limited".toList

def c3Oracle : Nat → CallOutcome := fun _ => CallOutcome.err c3Err

def c3Keys : List (List Char) :=
  ["AIzaKeyOne0000000000".toList, "AIzaKeyTwo0000000000".toList]

def c3Row : ImageRow :=
  { id := "row3".toList
    hasFile := true
    filename := "lake.jpg".toList
    title := []
    description := []
    keywords := []
    status := Status.pending
    errorMsg := none
    selected := false }

def c5Keys : List (List Char) := ["AIzaKeyOne0000000000".toList]

def c5Oracle : Nat → CallOutcome := fun _ => CallOutcome.err quotaErr

def c5NoFileRow : ImageRow :=
  { id := "row5".toList
    hasFile := false
    filename := "ghost.jpg".toList
    title := []
    description := []
    keywords := []
    status := Status.pending
    errorMsg := none
    selected := false }

def c5wOracle : Nat → CallOutcome := fun _ => CallOutcome.ok c1Resp

def c5wRow : ImageRow :=
  { id := "row5w".toList
    hasFile := true
    filename := "tree.jpg".toList
    title := []
    description := []
    keywords := []
    status := Status.pending
    errorMsg := none
    selected := false }

def c10Err : JsError := JsError.errorInstance "HTTP 429 Too Many Requests".toList

def c10Oracle : Nat → CallOutcome := fun idx =>
  if idx = 0 then CallOutcome.err c10Err else CallOutcome.ok c1Resp

def c10Keys : List (List Char) :=
  ["AIzaKeyOne0000000000".toList, "AIzaKeyTwo0000000000".toList]

def c10Row : ImageRow :=
  { id := "row10".toList
    hasFile := true
    filename := "dune.jpg".toList
    title := []
    description := []
    keywords := []
    status := Status.pending
    errorMsg := none
    selected := false }

/-- One settled row's effect on the snapshot: the total is unchanged,
`inProgress` drops by exactly one (with no underflow), and exactly one of
`completed`/`failed` is incremented. -/
def progressStep (p q : Progress) : Prop :=
  q.total = p.total ∧ q.inProgress + 1 = p.inProgress
    ∧ ((q.completed = p.completed + 1 ∧ q.failed = p.failed)
       ∨ (q.failed = p.failed + 1 ∧ q.completed = p.completed))

def c4Keys : List (List Char) := ["AIzaKeyOne0000000000".toList]

def c4RowA : ImageRow :=
  { id := "row4a".toList
    hasFile := true
    filename := "a.jpg".toList
    title := []
    description := []
    keywords := []
    status := Status.pending
    errorMsg := none
    selected := false }

def c4RowB : ImageRow :=
  { id := "row4b".toList
    hasFile := true
    filename := "b.jpg".toList
    title := []
    description := []
    keywords := []
    status := Status.pending
    errorMsg := none
    selected := false }

def c4Pairs : List (ImageRow × (Nat → CallOutcome)) :=
  [(c4RowA, fun _ => CallOutcome.ok c1Resp),
   (c4RowB, fun _ => CallOutcome.err nonQuotaErr)]

/-- A listed model: `{name, displayName, supportedGenerationMethods}`. -/
structure GeminiModel where
  name : List Char
  displayName : List Char
  supportedGenerationMethods : List (List Char)
deriving DecidableEq, Repr

/-- The two API variants of the listing endpoint. -/
inductive ApiVariant where
  | v1beta
  | v1
deriving DecidableEq, Repr

/-- The record returned by `resolveModel`. -/
structure ModelResolutionResult where
  modelName : List Char
  modelDisplayName : List Char
  apiVersion : ApiVariant
deriving DecidableEq, Repr

/-- `first` followed, possibly after other characters, by `second`,
somewhere in the string: the test of the regex `first.*second`. -/
def containsAfter (first second : List Char) : List Char → Bool
  | [] => false
  | c :: rest =>
    (first.isPrefixOf (c :: rest)
        && jsIncludes second ((c :: rest).drop first.length))
      || containsAfter first second rest

/-- `/gemini-.*-flash/i.test(name)`. -/
def flashTest (name : List Char) : Bool :=
  containsAfter "gemini-".toList "-flash".toList (jsToLower name)

/-- `/gemini-.*-pro/i.test(name)`. -/
def proTest (name : List Char) : Bool :=
  containsAfter "gemini-".toList "-pro".toList (jsToLower name)

/-- `/gemini/i.test(name)`. -/
def geminiTest (name : List Char) : Bool :=
  jsIncludes "gemini".toList (jsToLower name)

/-- `model.supportedGenerationMethods?.includes('generateContent')`. -/
def supportsGenerate (m : GeminiModel) : Bool :=
  m.supportedGenerationMethods.contains "generateContent".toList

/-- `findBestModel`: filter to capable models, then try the priority
patterns in order (any flash, then any pro, then any gemini model), each
taking the first match; otherwise fall back to the first capable model.
The `apiVersion` conditional in the source returns `v1beta` on both
branches. -/
def findBestModel (models : List GeminiModel) : Option (GeminiModel × ApiVariant) :=
  let supportedModels := models.filter supportsGenerate
  if supportedModels.isEmpty then none
  else
    match supportedModels.find? (fun m => flashTest m.name) with
    | some m => some (m, if jsIncludes "gemini-2.0".toList m.name
        then ApiVariant.v1beta else ApiVariant.v1beta)
    | none =>
      match supportedModels.find? (fun m => proTest m.name) with
      | some m => some (m, if jsIncludes "gemini-2.0".toList m.name
          then ApiVariant.v1beta else ApiVariant.v1beta)
      | none =>
        match supportedModels.find? (fun m => geminiTest m.name) with
        | some m => some (m, if jsIncludes "gemini-2.0".toList m.name
            then ApiVariant.v1beta else ApiVariant.v1beta)
        | none => supportedModels.head?.map (fun m => (m, ApiVariant.v1beta))

/-- `modelName.startsWith('models/') ? modelName.substring(7) : modelName`. -/
def stripModelsNamespace (modelName : List Char) : List Char :=
  if "models/".toList.isPrefixOf modelName then modelName.drop 7 else modelName

/-- Package a chosen model as `resolveModel` does: strip the `models/`
namespace; `displayName || modelName`. -/
def mkResult (best : GeminiModel × ApiVariant) : ModelResolutionResult :=
  { modelName := stripModelsNamespace best.1.name
    modelDisplayName := if best.1.displayName.isEmpty
      then stripModelsNamespace best.1.name else best.1.displayName
    apiVersion := best.2 }

/-- The `v1` iteration of the `for (const apiVersion of ['v1beta', 'v1'])`
loop: a thrown listing error now propagates; no capable model after both
variants raises the no-model error. -/
def resolveV1 (disc : ApiVariant → Except (List Char) (List GeminiModel)) :
    Except (List Char) ModelResolutionResult :=
  match disc ApiVariant.v1 with
  | Except.ok models =>
    match findBestModel models with
    | some best => Except.ok (mkResult best)
    | none => Except.error "No suitable model found for this API key".toList
  | Except.error e => Except.error e

/-- `resolveModel` over an abstract discovery outcome per variant: try
`v1beta` first; on ANY failure — or when the listing succeeds but no
capable model is found — continue with `v1`. -/
def resolveModel (disc : ApiVariant → Except (List Char) (List GeminiModel)) :
    Except (List Char) ModelResolutionResult :=
  match disc ApiVariant.v1beta with
  | Except.ok models =>
    match findBestModel models with
    | some best => Except.ok (mkResult best)
    | none => resolveV1 disc
  | Except.error _ => resolveV1 disc

/-- The ranking as the CLAIM states it (fast pattern, high-quality
pattern, then ANY remaining capable model in listing order) — written
from the specification's words for comparison with `findBestModel`. -/
def findBestModelClaim (models : List GeminiModel) : Option GeminiModel :=
  let supportedModels := models.filter supportsGenerate
  match supportedModels.find? (fun m => flashTest m.name) with
  | some m => some m
  | none =>
    match supportedModels.find? (fun m => proTest m.name) with
    | some m => some m
    | none => supportedModels.head?

/-- Preference tier of a capable model under the code's actual ranking:
flash, pro, gemini-named, then anything else. -/
def modelTier (m : GeminiModel) : Nat :=
  if flashTest m.name then 0
  else if proTest m.name then 1
  else if geminiTest m.name then 2
  else 3

def bisonModel : GeminiModel :=
  { name := "text-bison-001".toList
    displayName := "Bison".toList
    supportedGenerationMethods := ["generateContent".toList] }

def geminiUltraModel : GeminiModel :=
  { name := "models/gemini-1.0-ultra".toList
    displayName := "Gemini Ultra".toList
    supportedGenerationMethods := ["generateContent".toList] }

def c9Models : List GeminiModel := [bisonModel, geminiUltraModel]

def c9Disc : ApiVariant → Except (List Char) (List GeminiModel) :=
  fun _ => Except.ok c9Models

def c9DiscFail : ApiVariant → Except (List Char) (List GeminiModel) := fun v =>
  match v with
  | ApiVariant.v1beta => Except.error "Internal error: 500".toList
  | ApiVariant.v1 => Except.ok c9Models

def c9FlashModel : GeminiModel :=
  { name := "models/gemini-1.5-flash".toList
    displayName := "Gemini 1.5 Flash".toList
    supportedGenerationMethods := ["generateContent".toList] }

def c9wDisc : ApiVariant → Except (List Char) (List GeminiModel) :=
  fun _ => Except.ok [c9FlashModel]

/-! ## Theorems -/

theorem toNat_ofNat_of_lt (n : Nat) (h : n < 55296) : (Char.ofNat n).toNat = n := by
  have hv : n.isValidChar := Or.inl h
  rw [Char.ofNat, dif_pos hv]
  rfl

theorem toLower_toNat_of_upper (c : Char) (h : 65 ≤ c.toNat ∧ c.toNat ≤ 90) :
    c.toLower.toNat = c.toNat + 32 := by
  rw [Char.toLower, if_pos h]
  exact toNat_ofNat_of_lt _ (by omega)

theorem toLower_of_not_upper (c : Char) (h : ¬(65 ≤ c.toNat ∧ c.toNat ≤ 90)) :
    c.toLower = c := by
  rw [Char.toLower, if_neg h]

/-- Lowercasing a character is idempotent. -/
theorem toLower_toLower (c : Char) : c.toLower.toLower = c.toLower := by
  by_cases h : 65 ≤ c.toNat ∧ c.toNat ≤ 90
  · have h1 := toLower_toNat_of_upper c h
    exact toLower_of_not_upper _ (by omega)
  · rw [toLower_of_not_upper c h]
    exact toLower_of_not_upper c h

theorem char_eq_iff_toNat {c d : Char} : c = d ↔ c.toNat = d.toNat := by
  constructor
  · intro h; rw [h]
  · intro h
    cases c with
    | mk cv cp =>
      cases d with
      | mk dv dp =>
        congr 1
        exact UInt32.toNat.inj h

theorem isJsSpace_eq_false_of_toNat (c : Char)
    (h : c.toNat ≠ 32 ∧ c.toNat ≠ 9 ∧ c.toNat ≠ 10 ∧ c.toNat ≠ 13) :
    isJsSpace c = false := by
  simp only [isJsSpace, Bool.or_eq_false_iff, decide_eq_false_iff_not]
  refine ⟨⟨⟨fun he => ?_, fun he => ?_⟩, fun he => ?_⟩, fun he => ?_⟩
  · subst he; exact h.1 rfl
  · subst he; exact h.2.1 rfl
  · subst he; exact h.2.2.1 rfl
  · subst he; exact h.2.2.2 rfl

/-- Lowercasing does not create or destroy whitespace. -/
theorem isJsSpace_toLower (c : Char) : isJsSpace c.toLower = isJsSpace c := by
  by_cases h : 65 ≤ c.toNat ∧ c.toNat ≤ 90
  · have h1 := toLower_toNat_of_upper c h
    rw [isJsSpace_eq_false_of_toNat c.toLower (by omega),
      isJsSpace_eq_false_of_toNat c (by omega)]
  · rw [toLower_of_not_upper c h]

theorem dropWhile_map_comm (l : List Char) :
    (l.map Char.toLower).dropWhile isJsSpace
      = (l.dropWhile isJsSpace).map Char.toLower := by
  induction l with
  | nil => rfl
  | cons c rest ih =>
    simp only [List.map_cons, List.dropWhile_cons, isJsSpace_toLower]
    by_cases h : isJsSpace c
    · simp [h, ih]
    · simp [h]

theorem jsToLower_jsTrim_comm (s : List Char) :
    jsToLower (jsTrim s) = jsTrim (jsToLower s) := by
  simp only [jsTrim, jsToLower]
  rw [dropWhile_map_comm, ← List.map_reverse, dropWhile_map_comm, List.map_reverse]

theorem dropWhile_idem (l : List Char) :
    (l.dropWhile isJsSpace).dropWhile isJsSpace = l.dropWhile isJsSpace := by
  induction l with
  | nil => rfl
  | cons c rest ih =>
    by_cases h : isJsSpace c
    · simp only [List.dropWhile_cons, h, if_true]
      exact ih
    · simp [List.dropWhile_cons, h]

theorem head_dropWhile_not_space (l : List Char) (c : Char)
    (h : c ∈ (l.dropWhile isJsSpace).head?) : isJsSpace c = false := by
  induction l with
  | nil => simp [List.dropWhile] at h
  | cons d rest ih =>
    rw [List.dropWhile_cons] at h
    by_cases hd : isJsSpace d
    · rw [if_pos hd] at h; exact ih h
    · rw [if_neg hd] at h
      simp only [List.head?_cons, Option.mem_def, Option.some.injEq] at h
      subst h
      exact Bool.of_not_eq_true hd

theorem dropWhile_eq_self_of_head (l : List Char)
    (h : ∀ c ∈ l.head?, isJsSpace c = false) : l.dropWhile isJsSpace = l := by
  cases l with
  | nil => rfl
  | cons c rest =>
    have hc : isJsSpace c = false := h c (by simp)
    simp [List.dropWhile_cons, hc]

theorem getLast_dropWhile (l : List Char) (h : l.dropWhile isJsSpace ≠ []) :
    (l.dropWhile isJsSpace).getLast? = l.getLast? := by
  induction l with
  | nil => rfl
  | cons c rest ih =>
    by_cases hc : isJsSpace c
    · rw [List.dropWhile_cons, if_pos hc] at h ⊢
      cases rest with
      | nil => exact absurd rfl h
      | cons d ds =>
        rw [ih h, List.getLast?_cons_cons]
    · rw [List.dropWhile_cons, if_neg hc]

/-- `jsTrim` is idempotent. -/
theorem jsTrim_idem (s : List Char) : jsTrim (jsTrim s) = jsTrim s := by
  have hu : ∀ c ∈ (s.dropWhile isJsSpace).head?, isJsSpace c = false :=
    fun c hc => head_dropWhile_not_space s c hc
  simp only [jsTrim]
  set u := s.dropWhile isJsSpace with hu_def
  set t := u.reverse.dropWhile isJsSpace with ht_def
  by_cases htnil : t = []
  · rw [htnil]
    rfl
  · have hhead : ∀ c ∈ t.reverse.head?, isJsSpace c = false := by
      intro c hc
      rw [List.head?_reverse] at hc
      rw [ht_def, getLast_dropWhile u.reverse (ht_def ▸ htnil),
        List.getLast?_reverse] at hc
      exact hu c hc
    rw [dropWhile_eq_self_of_head t.reverse hhead, List.reverse_reverse,
      dropWhile_idem u.reverse]

theorem jsToLower_idem (s : List Char) : jsToLower (jsToLower s) = jsToLower s := by
  simp only [jsToLower, List.map_map]
  exact List.map_congr_left fun c _ => toLower_toLower c

theorem mem_dedupeAux {k : List Char} :
    ∀ (xs seen : List (List Char)), k ∈ dedupeAux seen xs ↔ k ∈ xs ∧ k ∉ seen := by
  intro xs
  induction xs with
  | nil => intro seen; simp [dedupeAux]
  | cons a as ih =>
    intro seen
    by_cases ha : a ∈ seen
    · rw [dedupeAux, if_pos ha, ih]
      constructor
      · rintro ⟨h1, h2⟩
        exact ⟨List.mem_cons_of_mem a h1, h2⟩
      · rintro ⟨h1, h2⟩
        rcases List.mem_cons.mp h1 with h | h
        · exact absurd (h ▸ ha) h2
        · exact ⟨h, h2⟩
    · rw [dedupeAux, if_neg ha]
      constructor
      · intro h
        rcases List.mem_cons.mp h with h | h
        · exact ⟨h ▸ List.mem_cons_self a as, h ▸ ha⟩
        · have := (ih (a :: seen)).mp h
          refine ⟨List.mem_cons_of_mem a this.1, fun hk => this.2 (List.mem_cons_of_mem a hk)⟩
      · rintro ⟨h1, h2⟩
        rcases List.mem_cons.mp h1 with h | h
        · exact h ▸ List.mem_cons_self a _
        · by_cases hk : k = a
          · exact hk ▸ List.mem_cons_self a _
          · exact List.mem_cons_of_mem a ((ih (a :: seen)).mpr
              ⟨h, fun hm => (List.mem_cons.mp hm).elim hk h2⟩)

theorem nodup_dedupeAux :
    ∀ (xs seen : List (List Char)), (dedupeAux seen xs).Nodup := by
  intro xs
  induction xs with
  | nil => intro seen; simp [dedupeAux]
  | cons a as ih =>
    intro seen
    by_cases ha : a ∈ seen
    · rw [dedupeAux, if_pos ha]; exact ih seen
    · rw [dedupeAux, if_neg ha]
      refine List.Nodup.cons ?_ (ih (a :: seen))
      intro hmem
      exact ((mem_dedupeAux as (a :: seen)).mp hmem).2 (List.mem_cons_self a seen)

theorem dedupeAux_sublist :
    ∀ (xs seen : List (List Char)), (dedupeAux seen xs).Sublist xs := by
  intro xs
  induction xs with
  | nil => intro seen; simp [dedupeAux]
  | cons a as ih =>
    intro seen
    by_cases ha : a ∈ seen
    · rw [dedupeAux, if_pos ha]
      exact (ih seen).cons a
    · rw [dedupeAux, if_neg ha]
      exact (ih (a :: seen)).cons₂ a

theorem dedupeAux_eq_self (xs : List (List Char)) (hnd : xs.Nodup) :
    ∀ seen, (∀ k ∈ xs, k ∉ seen) → dedupeAux seen xs = xs := by
  induction xs with
  | nil => intro seen _; rfl
  | cons a as ih =>
    intro seen hdisj
    rw [dedupeAux, if_neg (hdisj a (List.mem_cons_self a as))]
    congr 1
    refine ih (List.Nodup.of_cons hnd) (a :: seen) fun k hk hmem => ?_
    rcases List.mem_cons.mp hmem with h | h
    · exact (List.nodup_cons.mp hnd).1 (h ▸ hk)
    · exact hdisj k (List.mem_cons_of_mem a hk) h

theorem setDedupe_eq_self (xs : List (List Char)) (hnd : xs.Nodup) :
    setDedupe xs = xs :=
  dedupeAux_eq_self xs hnd [] (by simp)

/-- Every keyword produced by `normalizeKeyword` is a fixed point of
trimming and lowering, and is nonempty. -/
theorem normalizeKeyword_fixed {j k : List Char}
    (h : normalizeKeyword j = some k) :
    jsTrim k = k ∧ jsToLower k = k ∧ k ≠ [] := by
  unfold normalizeKeyword at h
  by_cases hl : (jsToLower (jsTrim j)).length > 0
  · rw [if_pos hl] at h
    cases h
    refine ⟨?_, ?_, ?_⟩
    · rw [← jsToLower_jsTrim_comm, jsTrim_idem, jsToLower_jsTrim_comm]
    · exact jsToLower_idem _
    · intro hnil
      rw [hnil] at hl
      simp at hl
  · rw [if_neg hl] at h
    cases h

theorem normalizeKeyword_of_fixed {k : List Char}
    (h1 : jsTrim k = k) (h2 : jsToLower k = k) (h3 : k ≠ []) :
    normalizeKeyword k = some k := by
  unfold normalizeKeyword
  rw [h1, h2, if_pos (by cases k with | nil => exact absurd rfl h3 | cons c cs => simp)]

theorem filterMap_normalizeKeyword_fixed (l : List (List Char))
    (h : ∀ k ∈ l, normalizeKeyword k = some k) :
    l.filterMap normalizeKeyword = l := by
  induction l with
  | nil => rfl
  | cons a as ih =>
    rw [List.filterMap_cons, h a (List.mem_cons_self a as),
      ih fun k hk => h k (List.mem_cons_of_mem a hk)]

theorem mem_normalizeKeywords_fixed {ks : List (List Char)} {k : List Char}
    (h : k ∈ normalizeKeywords ks) :
    jsTrim k = k ∧ jsToLower k = k ∧ k ≠ [] := by
  have hmem : k ∈ ks.filterMap normalizeKeyword :=
    ((mem_dedupeAux _ []).mp h).1
  obtain ⟨j, _, hj⟩ := List.mem_filterMap.mp hmem
  exact normalizeKeyword_fixed hj

/-- C6: `normalizeKeywords` lowercases and trims each entry, drops entries
that become empty, and deduplicates preserving first-seen order; its output
has no duplicate entries (case-insensitively: even the lowered forms are
pairwise distinct), no empty entries, every entry is a fixed point of
trimming and lowering, the output is a subsequence of the normalized input
stream (first-seen order), and the whole transform is idempotent. -/
theorem normalizeKeywords_spec (ks : List (List Char)) :
    normalizeKeywords (normalizeKeywords ks) = normalizeKeywords ks
      ∧ (normalizeKeywords ks).Pairwise (fun a b => jsToLower a ≠ jsToLower b)
      ∧ (∀ k ∈ normalizeKeywords ks, k ≠ [] ∧ jsTrim k = k ∧ jsToLower k = k)
      ∧ (normalizeKeywords ks).Sublist (ks.filterMap normalizeKeyword) := by
  have hfix : ∀ k ∈ normalizeKeywords ks, normalizeKeyword k = some k := by
    intro k hk
    obtain ⟨h1, h2, h3⟩ := mem_normalizeKeywords_fixed hk
    exact normalizeKeyword_of_fixed h1 h2 h3
  have hnd : (normalizeKeywords ks).Nodup := nodup_dedupeAux _ []
  refine ⟨?_, ?_, ?_, ?_⟩
  · show setDedupe (List.filterMap normalizeKeyword (normalizeKeywords ks))
      = normalizeKeywords ks
    rw [filterMap_normalizeKeyword_fixed _ hfix]
    exact setDedupe_eq_self _ hnd
  · refine hnd.imp_of_mem ?_
    intro a b ha hb hne heq
    obtain ⟨_, ha2, _⟩ := mem_normalizeKeywords_fixed ha
    obtain ⟨_, hb2, _⟩ := mem_normalizeKeywords_fixed hb
    exact hne (by rw [← ha2, ← hb2, heq])
  · intro k hk
    obtain ⟨h1, h2, h3⟩ := mem_normalizeKeywords_fixed hk
    exact ⟨h3, h1, h2⟩
  · exact dedupeAux_sublist _ []

theorem isPrefixOf_singleton (c d : Char) (rest : List Char) :
    [c].isPrefixOf (d :: rest) = decide (d = c) := by
  show (c == d && List.isPrefixOf [] rest) = decide (d = c)
  have hb : (c == d) = decide (c = d) := by
    cases hcd : c == d
    · simp only [beq_eq_false_iff_ne, ne_eq] at hcd
      simp [hcd]
    · simp only [beq_iff_eq] at hcd
      simp [hcd]
  rw [List.isPrefixOf, Bool.and_true, hb, decide_eq_decide]
  exact eq_comm

theorem jsIncludes_singleton (c : Char) (s : List Char) :
    jsIncludes [c] s = s.any (fun d => d = c) := by
  induction s with
  | nil => rfl
  | cons d rest ih =>
    rw [jsIncludes, isPrefixOf_singleton, ih, List.any_cons]

theorem parseQuotedBody_cons_ne (c : Char) (l : List Char) (hc : c ≠ '"') :
    parseQuotedBody (c :: l) = (parseQuotedBody l).map (fun t => c :: t) := by
  cases l with
  | nil => rw [parseQuotedBody.eq_2, if_neg hc]
  | cons d ds => rw [parseQuotedBody.eq_3, if_neg hc]

theorem parseQuotedBody_quote_cons (d : Char) (ds : List Char) :
    parseQuotedBody ('"' :: d :: ds)
      = if d = '"' then (parseQuotedBody ds).map (fun t => '"' :: t) else none := by
  rw [parseQuotedBody.eq_3, if_pos rfl]

theorem parseQuotedBody_doubleQuotes (s : List Char) :
    parseQuotedBody (doubleQuotes s ++ ['"']) = some s := by
  induction s with
  | nil => rfl
  | cons c rest ih =>
    by_cases hc : c = '"'
    · subst hc
      have hd : doubleQuotes ('"' :: rest) = '"' :: '"' :: doubleQuotes rest := by
        rw [doubleQuotes, if_pos rfl]
      rw [hd, List.cons_append, List.cons_append,
        parseQuotedBody_quote_cons, if_pos rfl, ih]
      rfl
    · have hd : doubleQuotes (c :: rest) = c :: doubleQuotes rest := by
        rw [doubleQuotes, if_neg hc]
      rw [hd, List.cons_append, parseQuotedBody_cons_ne c _ hc, ih]
      rfl

/-- The round-trip holds for every field, quoted or not. -/
theorem parseCsvField_escapeCsvField (s : List Char) :
    parseCsvField (escapeCsvField s) = some s := by
  by_cases h : (jsIncludes [','] s || jsIncludes ['"'] s || jsIncludes ['\n'] s) = true
  · rw [escapeCsvField, if_pos h, parseCsvField, if_pos rfl]
    exact parseQuotedBody_doubleQuotes s
  · have h' := h
    simp only [Bool.or_eq_true, not_or, Bool.not_eq_true] at h'
    obtain ⟨⟨h1, h2⟩, h3⟩ := h'
    rw [jsIncludes_singleton] at h1 h2 h3
    rw [escapeCsvField, if_neg h]
    cases s with
    | nil => rfl
    | cons c rest =>
      have hcq : c ≠ '"' := by
        intro hq
        rw [List.any_cons, hq] at h2
        simp at h2
      have hany : (c :: rest).any (fun d => d = ',' || d = '"' || d = '\n') = false := by
        rw [List.any_eq_false]
        intro x hx
        have e1 := List.any_eq_false.mp h1 x hx
        have e2 := List.any_eq_false.mp h2 x hx
        have e3 := List.any_eq_false.mp h3 x hx
        simp only [decide_eq_false_iff_not] at e1 e2 e3
        simp [e1, e2, e3]
      rw [parseCsvField, if_neg hcq, if_neg (by rw [hany]; exact Bool.false_ne_true)]

/-- C7: `escapeCsvField` performs RFC 4180 escaping: a value containing a
comma, a double quote, or a newline (any one of the three) is wrapped in
double quotes with the embedded quotes doubled, any other value is
returned unchanged, and every field — in particular one containing a
comma, a quote and a newline — parses back to the original string under a
standard RFC 4180 field parse. -/
theorem escapeCsvField_rfc4180 (s : List Char) :
    ((jsIncludes [','] s || jsIncludes ['"'] s || jsIncludes ['\n'] s) = true →
        escapeCsvField s = '"' :: (doubleQuotes s ++ ['"']))
      ∧ ((jsIncludes [','] s || jsIncludes ['"'] s || jsIncludes ['\n'] s) = false →
          escapeCsvField s = s)
      ∧ parseCsvField (escapeCsvField s) = some s := by
  refine ⟨?_, ?_, parseCsvField_escapeCsvField s⟩
  · intro h
    rw [escapeCsvField, if_pos h]
  · intro h
    rw [escapeCsvField, if_neg (by rw [h]; exact Bool.false_ne_true)]

/-- Witness for C7: the field `a,"b"(newline)c` (all three specials) is
wrapped and round-trips, and the field `a,b` (a comma only) is wrapped
too. -/
theorem escapeCsvField_rfc4180_witness :
    escapeCsvField "a,\"b\"\nc".toList
        = '"' :: (doubleQuotes "a,\"b\"\nc".toList ++ ['"'])
      ∧ escapeCsvField "a,b".toList = '"' :: (doubleQuotes "a,b".toList ++ ['"'])
      ∧ parseCsvField (escapeCsvField "a,\"b\"\nc".toList)
          = some "a,\"b\"\nc".toList :=
  ⟨(escapeCsvField_rfc4180 "a,\"b\"\nc".toList).1 (by decide),
   (escapeCsvField_rfc4180 "a,b".toList).1 (by decide),
   (escapeCsvField_rfc4180 "a,\"b\"\nc".toList).2.2⟩

theorem jsTrim_ne_nil_imp {s : List Char} (h : jsTrim s ≠ []) : s ≠ [] := by
  intro hs
  subst hs
  exact h rfl

theorem isEmpty_false_of_ne {α : Type} {s : List α} (h : s ≠ []) : s.isEmpty = false := by
  cases s with
  | nil => exact absurd rfl h
  | cons a l => rfl

/-- The `generateCsv` validity filter, characterized: status `success` and
all three metadata fields non-blank after trimming. -/
theorem rowEligible_iff (r : ImageRow) :
    rowEligible r = true ↔
      (r.status = Status.success ∧ jsTrim r.title ≠ [] ∧ jsTrim r.description ≠ []
        ∧ jsTrim r.keywords ≠ []) := by
  unfold rowEligible
  simp only [Bool.and_eq_true, decide_eq_true_eq, Bool.not_eq_true']
  constructor
  · rintro ⟨⟨⟨⟨⟨⟨hs, _⟩, ht2⟩, _⟩, hd2⟩, _⟩, hk2⟩
    exact ⟨hs, List.length_pos.mp ht2, List.length_pos.mp hd2, List.length_pos.mp hk2⟩
  · rintro ⟨hs, ht, hd, hk⟩
    exact ⟨⟨⟨⟨⟨⟨hs, isEmpty_false_of_ne (jsTrim_ne_nil_imp ht)⟩,
      List.length_pos.mpr ht⟩, isEmpty_false_of_ne (jsTrim_ne_nil_imp hd)⟩,
      List.length_pos.mpr hd⟩, isEmpty_false_of_ne (jsTrim_ne_nil_imp hk)⟩,
      List.length_pos.mpr hk⟩

/-- C8 counterexample: a `success` row whose title, description and
keywords are all non-empty strings (the title is a lone space) is NOT
included — `generateCsv` rejects the whole export — contradicting the
claim that exactly the `success` rows with non-empty fields are included. -/
theorem generateCsv_blankTitle_counterexample :
    blankTitleRow.status = Status.success
      ∧ blankTitleRow.title ≠ [] ∧ blankTitleRow.description ≠ []
      ∧ blankTitleRow.keywords ≠ []
      ∧ generateCsv [blankTitleRow] = Except.error
          "No valid rows to export. Please generate metadata for at least one image.".toList := by
  refine ⟨rfl, by decide, by decide, by decide, ?_⟩
  rfl

/-- C8 amended: `generateCsv` includes exactly those rows whose status is
`success` and whose title, description and keywords are all non-blank
(non-empty after trimming whitespace), in list order, after the fixed
header `Filename,Title,Description,Keywords`; if no row is eligible it
fails with an error instead of producing a CSV. -/
theorem generateCsv_spec (rows : List ImageRow) :
    (∀ r : ImageRow, rowEligible r = true ↔
        (r.status = Status.success ∧ jsTrim r.title ≠ [] ∧ jsTrim r.description ≠ []
          ∧ jsTrim r.keywords ≠ []))
      ∧ joinWith [','] CSV_COLUMNS = "Filename,Title,Description,Keywords".toList
      ∧ (rows.filter rowEligible = [] →
          generateCsv rows = Except.error
            "No valid rows to export. Please generate metadata for at least one image.".toList)
      ∧ (rows.filter rowEligible ≠ [] →
          generateCsv rows = Except.ok (joinWith ['\n']
            ("Filename,Title,Description,Keywords".toList
              :: (rows.filter rowEligible).map fun r => rowToCsvLine (imageRowToCsvRow r)))) := by
  refine ⟨rowEligible_iff, by decide, ?_, ?_⟩
  · intro hnil
    simp only [generateCsv, hnil]
    rfl
  · intro hne
    simp only [generateCsv]
    rw [isEmpty_false_of_ne hne, if_neg Bool.false_ne_true]
    rfl

theorem map_range_succ_shift {α : Type} (g : Nat → α) (j : Nat) :
    g 0 :: (List.range j).map (fun t => g (t + 1)) = (List.range (j + 1)).map g := by
  rw [List.range_succ_eq_map, List.map_cons, List.map_map]
  exact congrArg₂ List.cons rfl (List.map_congr_left fun t _ => rfl)

theorem tryKeysAux_success (n active : Nat) (oracle : Nat → CallOutcome)
    (resp : GeminiResponse) :
    ∀ (j i remaining : Nat) (lastError : Option JsError), j < remaining →
      (∀ t < j, ∃ e, oracle ((active + (i + t)) % n) = CallOutcome.err e
        ∧ isQuotaError e = true) →
      oracle ((active + (i + j)) % n) = CallOutcome.ok resp →
      tryKeysAux n active oracle lastError remaining i
        = ((List.range (j + 1)).map (fun t => (active + (i + t)) % n),
           LoopEnd.succeeded ((active + (i + j)) % n) resp) := by
  intro j
  induction j with
  | zero =>
    intro i remaining lastError hj hq hok
    rw [Nat.add_zero] at hok
    obtain ⟨r, rfl⟩ : ∃ r, remaining = r + 1 := ⟨remaining - 1, by omega⟩
    simp only [tryKeysAux, hok]
    rfl
  | succ j ih =>
    intro i remaining lastError hj hq hok
    obtain ⟨r, rfl⟩ : ∃ r, remaining = r + 1 := ⟨remaining - 1, by omega⟩
    obtain ⟨e0, he0, hqe0⟩ := hq 0 (Nat.succ_pos j)
    rw [Nat.add_zero] at he0
    have hq' : ∀ t < j, ∃ e, oracle ((active + (i + 1 + t)) % n) = CallOutcome.err e
        ∧ isQuotaError e = true := by
      intro t ht
      obtain ⟨e, he, hqe⟩ := hq (t + 1) (by omega)
      refine ⟨e, ?_, hqe⟩
      rw [show active + (i + 1 + t) = active + (i + (t + 1)) by omega]
      exact he
    have hok' : oracle ((active + (i + 1 + j)) % n) = CallOutcome.ok resp := by
      rw [show active + (i + 1 + j) = active + (i + (j + 1)) by omega]
      exact hok
    have hrec := ih (i + 1) r (some e0) (by omega) hq' hok'
    simp only [tryKeysAux, he0, hqe0, if_true]
    rw [hrec]
    have e1 : (List.range (j + 1)).map (fun t => (active + (i + 1 + t)) % n)
        = (List.range (j + 1)).map (fun t => (active + (i + (t + 1))) % n) :=
      List.map_congr_left fun t _ => by
        show (active + (i + 1 + t)) % n = (active + (i + (t + 1))) % n
        congr 1
        omega
    have e2 : (active + (i + 1 + j)) % n = (active + (i + (j + 1))) % n := by
      congr 1
      omega
    show ((active + i) % n
          :: (List.range (j + 1)).map (fun t => (active + (i + 1 + t)) % n),
        LoopEnd.succeeded ((active + (i + 1 + j)) % n) resp)
      = ((List.range (j + 1 + 1)).map (fun t => (active + (i + t)) % n),
        LoopEnd.succeeded ((active + (i + (j + 1))) % n) resp)
    rw [e1, e2]
    refine congrArg₂ Prod.mk ?_ rfl
    exact map_range_succ_shift (fun t => (active + (i + t)) % n) (j + 1)

theorem tryKeysAux_exhausted (n active : Nat) (oracle : Nat → CallOutcome) :
    ∀ (remaining i : Nat) (lastError : Option JsError),
      (∀ t < remaining, ∃ e, oracle ((active + (i + t)) % n) = CallOutcome.err e
        ∧ isQuotaError e = true) →
      ∃ le, tryKeysAux n active oracle lastError remaining i
        = ((List.range remaining).map (fun t => (active + (i + t)) % n),
           LoopEnd.exhausted le) := by
  intro remaining
  induction remaining with
  | zero =>
    intro i lastError _
    exact ⟨lastError, rfl⟩
  | succ r ih =>
    intro i lastError h
    obtain ⟨e0, he0, hq0⟩ := h 0 (Nat.succ_pos r)
    rw [Nat.add_zero] at he0
    have h' : ∀ t < r, ∃ e, oracle ((active + (i + 1 + t)) % n) = CallOutcome.err e
        ∧ isQuotaError e = true := by
      intro t ht
      obtain ⟨e, he, hqe⟩ := h (t + 1) (by omega)
      refine ⟨e, ?_, hqe⟩
      rw [show active + (i + 1 + t) = active + (i + (t + 1)) by omega]
      exact he
    obtain ⟨le, hrec⟩ := ih (i + 1) (some e0) h'
    refine ⟨le, ?_⟩
    simp only [tryKeysAux, he0, hq0, if_true]
    rw [hrec]
    have e1 : (List.range r).map (fun t => (active + (i + 1 + t)) % n)
        = (List.range r).map (fun t => (active + (i + (t + 1))) % n) :=
      List.map_congr_left fun t _ => by
        show (active + (i + 1 + t)) % n = (active + (i + (t + 1))) % n
        congr 1
        omega
    show ((active + i) % n :: (List.range r).map (fun t => (active + (i + 1 + t)) % n),
        LoopEnd.exhausted le)
      = ((List.range (r + 1)).map (fun t => (active + (i + t)) % n),
        LoopEnd.exhausted le)
    rw [e1]
    refine congrArg₂ Prod.mk ?_ rfl
    exact map_range_succ_shift (fun t => (active + (i + t)) % n) r

theorem tryKeysAux_first (n active : Nat) (oracle : Nat → CallOutcome)
    (lastError : Option JsError) (r i : Nat) :
    ∃ tail ending, tryKeysAux n active oracle lastError (r + 1) i
      = ((active + i) % n :: tail, ending) := by
  cases h : oracle ((active + i) % n) with
  | ok resp =>
    refine ⟨[], LoopEnd.succeeded ((active + i) % n) resp, ?_⟩
    simp [tryKeysAux, h]
  | err e =>
    by_cases hq : isQuotaError e
    · refine ⟨(tryKeysAux n active oracle (some e) r (i + 1)).1,
        (tryKeysAux n active oracle (some e) r (i + 1)).2, ?_⟩
      simp [tryKeysAux, h, hq]
    · refine ⟨[], LoopEnd.threw e, ?_⟩
      simp [tryKeysAux, h, hq]

theorem tryKeys_success (n active : Nat) (oracle : Nat → CallOutcome)
    (resp : GeminiResponse) (j : Nat) (hj : j < n)
    (hq : ∀ t < j, ∃ e, oracle ((active + t) % n) = CallOutcome.err e
      ∧ isQuotaError e = true)
    (hok : oracle ((active + j) % n) = CallOutcome.ok resp) :
    tryKeys n active oracle
      = ((List.range (j + 1)).map (fun t => (active + t) % n),
         LoopEnd.succeeded ((active + j) % n) resp) := by
  have hq0 : ∀ t < j, ∃ e, oracle ((active + (0 + t)) % n) = CallOutcome.err e
      ∧ isQuotaError e = true := by
    intro t ht
    rw [Nat.zero_add]
    exact hq t ht
  have hok0 : oracle ((active + (0 + j)) % n) = CallOutcome.ok resp := by
    rw [Nat.zero_add]
    exact hok
  rw [tryKeys, tryKeysAux_success n active oracle resp j 0 n none hj hq0 hok0]
  refine congrArg₂ Prod.mk ?_ ?_
  · refine List.map_congr_left fun t _ => ?_
    show (active + (0 + t)) % n = (active + t) % n
    rw [Nat.zero_add]
  · rw [Nat.zero_add]

theorem tryKeys_allQuota (n active : Nat) (oracle : Nat → CallOutcome)
    (hq : ∀ t < n, ∃ e, oracle ((active + t) % n) = CallOutcome.err e
      ∧ isQuotaError e = true) :
    ∃ le, tryKeys n active oracle
      = ((List.range n).map (fun t => (active + t) % n), LoopEnd.exhausted le) := by
  have hq0 : ∀ t < n, ∃ e, oracle ((active + (0 + t)) % n) = CallOutcome.err e
      ∧ isQuotaError e = true := by
    intro t ht
    rw [Nat.zero_add]
    exact hq t ht
  obtain ⟨le, hrec⟩ := tryKeysAux_exhausted n active oracle n 0 none hq0
  refine ⟨le, ?_⟩
  rw [tryKeys, hrec]
  refine congrArg₂ Prod.mk ?_ rfl
  refine List.map_congr_left fun t _ => ?_
  show (active + (0 + t)) % n = (active + t) % n
  rw [Nat.zero_add]

theorem tryKeys_first_nonquota (n active : Nat) (oracle : Nat → CallOutcome)
    (e : JsError) (hn : 0 < n) (he : oracle (active % n) = CallOutcome.err e)
    (hq : isQuotaError e = false) :
    tryKeys n active oracle = ([active % n], LoopEnd.threw e) := by
  obtain ⟨r, rfl⟩ : ∃ r, n = r + 1 := ⟨n - 1, by omega⟩
  rw [tryKeys]
  simp only [tryKeysAux, Nat.add_zero, he, hq]
  rfl

theorem tryKeysAux_step_quota (n active : Nat) (oracle : Nat → CallOutcome)
    (lastError : Option JsError) (r i : Nat) (e : JsError)
    (he : oracle ((active + i) % n) = CallOutcome.err e) (hq : isQuotaError e = true) :
    tryKeysAux n active oracle lastError (r + 1) i
      = ((active + i) % n :: (tryKeysAux n active oracle (some e) r (i + 1)).1,
         (tryKeysAux n active oracle (some e) r (i + 1)).2) := by
  simp only [tryKeysAux, he, hq, if_true]

theorem tryKeys_first_quota (n active : Nat) (oracle : Nat → CallOutcome)
    (e : JsError) (hn : 2 ≤ n) (he : oracle (active % n) = CallOutcome.err e)
    (hq : isQuotaError e = true) :
    ∃ tail ending, tryKeys n active oracle
      = (active % n :: (active + 1) % n :: tail, ending) := by
  obtain ⟨r2, rfl⟩ : ∃ r2, n = r2 + 1 + 1 := ⟨n - 2, by omega⟩
  obtain ⟨tail, ending, hrest⟩ := tryKeysAux_first (r2 + 1 + 1) active oracle (some e) r2 1
  refine ⟨tail, ending, ?_⟩
  rw [tryKeys,
    tryKeysAux_step_quota (r2 + 1 + 1) active oracle none (r2 + 1) 0 e
      (by rw [Nat.add_zero]; exact he) hq]
  simp only [Nat.add_zero, Nat.zero_add]
  rw [hrest]

theorem generateForRow_succeeded (keys : List (List Char)) (active : Nat)
    (oracle : Nat → CallOutcome) (row : ImageRow) (tried : List Nat)
    (keyIdx : Nat) (resp : GeminiResponse)
    (hfile : row.hasFile = true) (hkeys : keys ≠ [])
    (htk : tryKeys keys.length active oracle = (tried, LoopEnd.succeeded keyIdx resp)) :
    generateForRow keys active oracle row =
      { row := { row with
          status := Status.success
          title := resp.title
          description := resp.description
          keywords := processKeywordsNormalized resp.keywords
          errorMsg := none }
        active := keyIdx
        threw := false
        thrownError := none
        calls := tried
        statusTrace := [row.status, Status.generating, Status.success] } := by
  rw [generateForRow, if_neg (by simp [hfile]), if_neg (by simp [hkeys])]
  split
  · rename_i tried1 keyIdx1 resp1 heq
    rw [htk] at heq
    simp only [Prod.mk.injEq, LoopEnd.succeeded.injEq] at heq
    obtain ⟨h1, h2, h3⟩ := heq
    subst h1
    subst h2
    subst h3
    rfl
  · rename_i tried1 e1 heq
    rw [htk] at heq
    simp at heq
  · rename_i tried1 le1 heq
    rw [htk] at heq
    simp at heq

theorem generateForRow_threw (keys : List (List Char)) (active : Nat)
    (oracle : Nat → CallOutcome) (row : ImageRow) (tried : List Nat) (e : JsError)
    (hfile : row.hasFile = true) (hkeys : keys ≠ [])
    (htk : tryKeys keys.length active oracle = (tried, LoopEnd.threw e)) :
    generateForRow keys active oracle row =
      { row := { row with status := Status.generating }
        active := active
        threw := true
        thrownError := some e
        calls := tried
        statusTrace := [row.status, Status.generating] } := by
  rw [generateForRow, if_neg (by simp [hfile]), if_neg (by simp [hkeys])]
  split
  · rename_i tried1 keyIdx1 resp1 heq
    rw [htk] at heq
    simp at heq
  · rename_i tried1 e1 heq
    rw [htk] at heq
    simp only [Prod.mk.injEq, LoopEnd.threw.injEq] at heq
    obtain ⟨h1, h2⟩ := heq
    subst h1
    subst h2
    rfl
  · rename_i tried1 le1 heq
    rw [htk] at heq
    simp at heq

theorem generateForRow_exhaustedCase (keys : List (List Char)) (active : Nat)
    (oracle : Nat → CallOutcome) (row : ImageRow) (tried : List Nat)
    (lastError : Option JsError)
    (hfile : row.hasFile = true) (hkeys : keys ≠ [])
    (htk : tryKeys keys.length active oracle = (tried, LoopEnd.exhausted lastError)) :
    generateForRow keys active oracle row =
      { row := { row with
          status := Status.error
          errorMsg := some ("All ".toList ++ (toString keys.length).toList
            ++ " keys exhausted or failed. ".toList ++ lastErrorMessage lastError) }
        active := active
        threw := true
        thrownError := lastError
        calls := tried
        statusTrace := [row.status, Status.generating, Status.error] } := by
  rw [generateForRow, if_neg (by simp [hfile]), if_neg (by simp [hkeys])]
  split
  · rename_i tried1 keyIdx1 resp1 heq
    rw [htk] at heq
    simp at heq
  · rename_i tried1 e1 heq
    rw [htk] at heq
    simp at heq
  · rename_i tried1 le1 heq
    rw [htk] at heq
    simp only [Prod.mk.injEq, LoopEnd.exhausted.injEq] at heq
    obtain ⟨h1, h2⟩ := heq
    subst h1
    subst h2
    rfl

theorem generateForRow_noFile (keys : List (List Char)) (active : Nat)
    (oracle : Nat → CallOutcome) (row : ImageRow) (hfile : row.hasFile = false) :
    generateForRow keys active oracle row =
      { row := { row with status := Status.error, errorMsg := some "File missing".toList }
        active := active
        threw := false
        thrownError := none
        calls := []
        statusTrace := [row.status, Status.error] } := by
  rw [generateForRow, if_pos hfile]

/-- Witness for C8: a one-row export with non-blank fields produces the
header plus that row's escaped line. -/
theorem generateCsv_spec_witness :
    generateCsv [{ blankTitleRow with title := "A mountain, at \"dawn\"".toList }]
      = Except.ok (joinWith ['\n']
          ("Filename,Title,Description,Keywords".toList
            :: ([{ blankTitleRow with title := "A mountain, at \"dawn\"".toList }].filter
                  rowEligible).map fun r => rowToCsvLine (imageRowToCsvRow r))) :=
  (generateCsv_spec [{ blankTitleRow with title := "A mountain, at \"dawn\"".toList }]).2.2.2
    (by decide)

theorem mem_of_nodup_length (l : List Nat) (N : Nat) (hnd : l.Nodup)
    (hlen : l.length = N) (hlt : ∀ x ∈ l, x < N) : ∀ idx, idx < N → idx ∈ l := by
  intro idx hidx
  have hsub : l.toFinset ⊆ Finset.range N := fun x hx =>
    Finset.mem_range.mpr (hlt x (List.mem_toFinset.mp hx))
  have hcard : l.toFinset.card = N := by
    rw [List.toFinset_card_of_nodup hnd, hlen]
  have heq : l.toFinset = Finset.range N :=
    Finset.eq_of_subset_of_card_le hsub (by rw [hcard, Finset.card_range])
  have hmem : idx ∈ l.toFinset := heq ▸ Finset.mem_range.mpr hidx
  exact List.mem_toFinset.mp hmem

/-- C1: starting at the last-known-good index, `generateForRow` tries
credentials in round-robin order; after `j` quota failures followed by a
success it has invoked exactly the indices
`(g + 0) % N, ..., (g + j) % N`, records the returned title, description
and normalized (comma-joined) keywords, marks the row `success`, stops,
and the last-known-good index becomes the succeeding credential's index. -/
theorem generateForRow_rotation (keys : List (List Char)) (active : Nat)
    (oracle : Nat → CallOutcome) (row : ImageRow) (j : Nat) (resp : GeminiResponse)
    (hfile : row.hasFile = true) (hj : j < keys.length)
    (hq : ∀ t < j, ∃ e, oracle ((active + t) % keys.length) = CallOutcome.err e
      ∧ isQuotaError e = true)
    (hok : oracle ((active + j) % keys.length) = CallOutcome.ok resp) :
    (generateForRow keys active oracle row).calls
        = (List.range (j + 1)).map (fun t => (active + t) % keys.length)
      ∧ (generateForRow keys active oracle row).row.status = Status.success
      ∧ (generateForRow keys active oracle row).row.title = resp.title
      ∧ (generateForRow keys active oracle row).row.description = resp.description
      ∧ (generateForRow keys active oracle row).row.keywords
          = processKeywordsNormalized resp.keywords
      ∧ (generateForRow keys active oracle row).active = (active + j) % keys.length
      ∧ (generateForRow keys active oracle row).threw = false := by
  have hkeys : keys ≠ [] := by
    intro h
    rw [h] at hj
    simp at hj
  rw [generateForRow_succeeded keys active oracle row _ _ resp hfile hkeys
    (tryKeys_success keys.length active oracle resp j hj hq hok)]
  exact ⟨rfl, rfl, rfl, rfl, rfl, rfl, rfl⟩

/-- Witness for C1: with 3 keys where keys 0 and 1 are quota-limited and
key 2 succeeds, a row starting at last-known-good 0 tries `[0, 1, 2]`,
succeeds on the third, and last-known-good becomes 2. -/
theorem generateForRow_rotation_witness :
    (generateForRow c1Keys 0 c1Oracle c1Row).calls = [0, 1, 2]
      ∧ (generateForRow c1Keys 0 c1Oracle c1Row).row.status = Status.success
      ∧ (generateForRow c1Keys 0 c1Oracle c1Row).active = 2
      ∧ (generateForRow c1Keys 0 c1Oracle c1Row).threw = false := by
  have h := generateForRow_rotation c1Keys 0 c1Oracle c1Row 2 c1Resp rfl (by decide)
    (fun t ht => ⟨quotaErr, by interval_cases t <;> exact ⟨rfl, by decide⟩⟩) rfl
  exact ⟨h.1.trans (by decide), h.2.1, h.2.2.2.2.2.1, h.2.2.2.2.2.2⟩

/-- C2 (code bug): with two keys, when key 0 rejects with a non-quota
`ApiError`, `generateForRow` tries no further key (calls = [0]) and
rejects — but the row is left in status `generating` with no error
message: the `throw error` exits `generateForRow` before any
`handleUpdateRow(..., status: 'error')` runs, so the specification's
"mark the row error immediately" never happens. -/
theorem generateForRow_nonQuota_staysGenerating :
    (generateForRow c2Keys 0 c2Oracle c2Row).calls = [0]
      ∧ (generateForRow c2Keys 0 c2Oracle c2Row).threw = true
      ∧ (generateForRow c2Keys 0 c2Oracle c2Row).thrownError = some nonQuotaErr
      ∧ (generateForRow c2Keys 0 c2Oracle c2Row).row.status = Status.generating
      ∧ (generateForRow c2Keys 0 c2Oracle c2Row).row.errorMsg = none
      ∧ (generateForRow c2Keys 0 c2Oracle c2Row).statusTrace
          = [Status.pending, Status.generating] := by
  refine ⟨?_, ?_, ?_, ?_, ?_, ?_⟩ <;> rfl

/-- C3: if every key returns a quota error, the row ends in `error` with a
message citing the number of keys, each of the `N` key indices is invoked
exactly once (the calls are the `N` distinct round-robin indices), and the
call rejects. -/
theorem generateForRow_exhaustion (keys : List (List Char)) (active : Nat)
    (oracle : Nat → CallOutcome) (row : ImageRow)
    (hfile : row.hasFile = true) (hkeys : keys ≠ [])
    (hq : ∀ idx < keys.length, ∃ e, oracle idx = CallOutcome.err e
      ∧ isQuotaError e = true) :
    (generateForRow keys active oracle row).row.status = Status.error
      ∧ (∃ tail, (generateForRow keys active oracle row).row.errorMsg
          = some ("All ".toList ++ (toString keys.length).toList
              ++ " keys exhausted or failed. ".toList ++ tail))
      ∧ (generateForRow keys active oracle row).calls
          = (List.range keys.length).map (fun t => (active + t) % keys.length)
      ∧ (generateForRow keys active oracle row).calls.Nodup
      ∧ (generateForRow keys active oracle row).calls.length = keys.length
      ∧ (∀ idx < keys.length, idx ∈ (generateForRow keys active oracle row).calls)
      ∧ (generateForRow keys active oracle row).threw = true := by
  have hpos : 0 < keys.length := List.length_pos.mpr hkeys
  have hq' : ∀ t < keys.length, ∃ e,
      oracle ((active + t) % keys.length) = CallOutcome.err e ∧ isQuotaError e = true :=
    fun t _ => hq ((active + t) % keys.length) (Nat.mod_lt _ hpos)
  obtain ⟨le, htk⟩ := tryKeys_allQuota keys.length active oracle hq'
  rw [generateForRow_exhaustedCase keys active oracle row _ le hfile hkeys htk]
  have hinj : ∀ t1 ∈ List.range keys.length, ∀ t2 ∈ List.range keys.length,
      (active + t1) % keys.length = (active + t2) % keys.length → t1 = t2 := by
    intro t1 h1 t2 h2 heq
    have hm : t1 % keys.length = t2 % keys.length :=
      Nat.ModEq.add_left_cancel' active heq
    rw [Nat.mod_eq_of_lt (List.mem_range.mp h1),
      Nat.mod_eq_of_lt (List.mem_range.mp h2)] at hm
    exact hm
  have hnd : ((List.range keys.length).map
      (fun t => (active + t) % keys.length)).Nodup :=
    (List.nodup_range keys.length).map_on hinj
  have hlen : ((List.range keys.length).map
      (fun t => (active + t) % keys.length)).length = keys.length := by
    simp
  have hlt : ∀ x ∈ (List.range keys.length).map
      (fun t => (active + t) % keys.length), x < keys.length := by
    intro x hx
    obtain ⟨t, _, rfl⟩ := List.mem_map.mp hx
    exact Nat.mod_lt _ hpos
  exact ⟨rfl, ⟨lastErrorMessage le, rfl⟩, rfl, hnd, hlen,
    fun idx hidx => mem_of_nodup_length _ keys.length hnd hlen hlt idx hidx, rfl⟩

/-- Witness for C3: two keys, both quota-limited — the row errors and
both indices were tried once, in order. -/
theorem generateForRow_exhaustion_witness :
    (generateForRow c3Keys 0 c3Oracle c3Row).row.status = Status.error
      ∧ (generateForRow c3Keys 0 c3Oracle c3Row).calls = [0, 1] := by
  have h := generateForRow_exhaustion c3Keys 0 c3Oracle c3Row rfl (by decide)
    (fun idx _ => ⟨c3Err, rfl, by decide⟩)
  exact ⟨h.1, h.2.2.1.trans (by decide)⟩

/-- C5 counterexample: a pending row whose backing `file` object is
missing is marked `error` directly, never entering `generating` — the
transition pending → error is outside the claimed transition relation. -/
theorem statusTransitions_counterexample :
    (generateForRow c5Keys 0 c5Oracle c5NoFileRow).statusTrace
        = [Status.pending, Status.error]
      ∧ allowedTransition Status.pending Status.error = false :=
  ⟨rfl, rfl⟩

/-- C5 amended: for every row the orchestrator submits (status `pending`
or `error`), the statuses `generateForRow` drives the row through follow
pending → generating → {success, error} and error → generating — except
that a row with no backing file is marked `error` directly from its
current status, without entering `generating`. -/
theorem statusTransitions (keys : List (List Char)) (active : Nat)
    (oracle : Nat → CallOutcome) (row : ImageRow)
    (hst : row.status = Status.pending ∨ row.status = Status.error) :
    (row.hasFile = true →
      ((generateForRow keys active oracle row).statusTrace).Chain'
        (fun a b => allowedTransition a b = true))
      ∧ (row.hasFile = false →
          (generateForRow keys active oracle row).statusTrace
            = [row.status, Status.error]) := by
  have hallow : allowedTransition row.status Status.generating = true := by
    rcases hst with h | h <;> rw [h] <;> rfl
  constructor
  · intro hfile
    by_cases hkeys : keys = []
    · subst hkeys
      rw [generateForRow, if_neg (by simp [hfile]),
        if_pos (show List.length ([] : List (List Char)) = 0 from rfl)]
      exact List.chain'_singleton row.status
    · rcases htk : tryKeys keys.length active oracle with ⟨tried, ending⟩
      cases ending with
      | succeeded keyIdx resp =>
        rw [generateForRow_succeeded keys active oracle row tried keyIdx resp
          hfile hkeys htk]
        exact List.Chain'.cons hallow (List.Chain'.cons rfl (List.chain'_singleton _))
      | threw e =>
        rw [generateForRow_threw keys active oracle row tried e hfile hkeys htk]
        exact List.Chain'.cons hallow (List.chain'_singleton _)
      | exhausted lastError =>
        rw [generateForRow_exhaustedCase keys active oracle row tried lastError
          hfile hkeys htk]
        exact List.Chain'.cons hallow (List.Chain'.cons rfl (List.chain'_singleton _))
  · intro hfile
    rw [generateForRow_noFile keys active oracle row hfile]

/-- Witness for C5 (amended): a pending row with a file follows only
allowed transitions. -/
theorem statusTransitions_witness :
    ((generateForRow c5Keys 0 c5wOracle c5wRow).statusTrace).Chain'
      (fun a b => allowedTransition a b = true) :=
  (statusTransitions c5Keys 0 c5wOracle c5wRow (Or.inl rfl)).1 rfl

/-- C10: during per-row failover the code rotates to the next credential
exactly when `isQuotaError` holds, and `isQuotaError` holds exactly for
thrown values carrying the `QUOTA_EXCEEDED` code and for `Error` instances
whose message contains the substring `429`; every other first-key failure
is row-fatal: no second key is invoked and the call rejects with the row
still `generating`. -/
theorem quotaClassification (keys : List (List Char)) (active : Nat)
    (oracle : Nat → CallOutcome) (row : ImageRow) (e : JsError)
    (hfile : row.hasFile = true) (hkeys : 2 ≤ keys.length)
    (he : oracle (active % keys.length) = CallOutcome.err e) :
    (isQuotaError e = false →
        (generateForRow keys active oracle row).calls = [active % keys.length]
          ∧ (generateForRow keys active oracle row).threw = true
          ∧ (generateForRow keys active oracle row).row.status = Status.generating)
      ∧ (isQuotaError e = true →
          ∃ tail, (generateForRow keys active oracle row).calls
            = active % keys.length :: (active + 1) % keys.length :: tail)
      ∧ (isQuotaError e = true ↔
          (∃ m c s, e = JsError.apiError m c s ∧ c = some "QUOTA_EXCEEDED".toList)
            ∨ (∃ m, e = JsError.errorInstance m
                ∧ jsIncludes "429".toList m = true)) := by
  have hkeys' : keys ≠ [] := by
    intro h
    rw [h] at hkeys
    simp at hkeys
  refine ⟨?_, ?_, ?_⟩
  · intro hq
    rw [generateForRow_threw keys active oracle row _ e hfile hkeys'
      (tryKeys_first_nonquota keys.length active oracle e (by omega) he hq)]
    exact ⟨rfl, rfl, rfl⟩
  · intro hq
    obtain ⟨tail, ending, htk⟩ :=
      tryKeys_first_quota keys.length active oracle e hkeys he hq
    cases ending with
    | succeeded keyIdx resp =>
      rw [generateForRow_succeeded keys active oracle row _ keyIdx resp
        hfile hkeys' htk]
      exact ⟨tail, rfl⟩
    | threw e2 =>
      rw [generateForRow_threw keys active oracle row _ e2 hfile hkeys' htk]
      exact ⟨tail, rfl⟩
    | exhausted lastError =>
      rw [generateForRow_exhaustedCase keys active oracle row _ lastError
        hfile hkeys' htk]
      exact ⟨tail, rfl⟩
  · cases e with
    | apiError m c s =>
      simp only [isQuotaError, decide_eq_true_eq]
      constructor
      · intro hc
        exact Or.inl ⟨m, c, s, rfl, hc⟩
      · rintro (⟨m2, c2, s2, heq, hc⟩ | ⟨m2, heq, hjs⟩)
        · cases heq
          exact hc
        · cases heq
    | errorInstance m =>
      simp only [isQuotaError]
      constructor
      · intro hjs
        exact Or.inr ⟨m, rfl, hjs⟩
      · rintro (⟨m2, c2, s2, heq, hc⟩ | ⟨m2, heq, hjs⟩)
        · cases heq
        · cases heq
          exact hjs

/-- Witness for C10: an `Error` instance whose message merely contains
`429` (no `QUOTA_EXCEEDED` code) still triggers rotation to key 1. -/
theorem quotaClassification_witness :
    ∃ tail, (generateForRow c10Keys 0 c10Oracle c10Row).calls = 0 :: 1 :: tail :=
  (quotaClassification c10Keys 0 c10Oracle c10Row c10Err rfl (by decide) rfl).2.1
    (by decide)

theorem runRows_progress (keys : List (List Char)) :
    ∀ (pairs : List (ImageRow × (Nat → CallOutcome))) (active : Nat) (p : Progress),
      p.inProgress = pairs.length →
      (runRows keys active p pairs).trace.length = pairs.length
        ∧ List.Chain' progressStep (p :: (runRows keys active p pairs).trace)
        ∧ (p :: (runRows keys active p pairs).trace).getLast?
            = some (runRows keys active p pairs).progress
        ∧ (runRows keys active p pairs).progress.total = p.total
        ∧ (runRows keys active p pairs).progress.completed
              + (runRows keys active p pairs).progress.failed
            = p.completed + p.failed + pairs.length
        ∧ (runRows keys active p pairs).progress.inProgress = 0 := by
  intro pairs
  induction pairs with
  | nil =>
    intro active p hp
    exact ⟨rfl, List.chain'_singleton p, rfl, rfl, rfl, hp⟩
  | cons pair rest ih =>
    obtain ⟨row, oracle⟩ := pair
    intro active p hp
    simp only [List.length_cons] at hp
    simp only [runRows]
    set r := generateForRow keys active oracle row with hr
    set p1 := if r.threw then
        { p with failed := p.failed + 1, inProgress := p.inProgress - 1 }
      else
        { p with completed := p.completed + 1, inProgress := p.inProgress - 1 }
      with hp1
    have hp1total : p1.total = p.total := by
      rw [hp1]
      by_cases ht : r.threw <;> simp [ht]
    have hp1in : p1.inProgress = p.inProgress - 1 := by
      rw [hp1]
      by_cases ht : r.threw <;> simp [ht]
    have hp1sum : p1.completed + p1.failed = p.completed + p.failed + 1 := by
      rw [hp1]
      by_cases ht : r.threw <;> simp [ht] <;> omega
    have hstep : progressStep p p1 := by
      refine ⟨hp1total, ?_, ?_⟩
      · rw [hp1in]
        omega
      · rw [hp1]
        by_cases ht : r.threw
        · simp [ht]
        · simp [ht]
    have hp1len : p1.inProgress = rest.length := by
      rw [hp1in]
      omega
    obtain ⟨ihlen, ihchain, ihlast, ihtotal, ihsum, ihin⟩ := ih r.active p1 hp1len
    refine ⟨?_, ?_, ?_, ?_, ?_, ?_⟩
    · simp [ihlen]
    · exact List.Chain'.cons hstep ihchain
    · rw [List.getLast?_cons_cons]
      exact ihlast
    · rw [ihtotal, hp1total]
    · simp only [List.length_cons]
      omega
    · exact ihin

/-- C4: a batch over a non-empty queue with at least one key starts the
snapshot at `{total = k, completed = 0, failed = 0, inProgress = k}`; each
settled row increments exactly one of completed/failed and decrements
inProgress by one; at the end `completed + failed = total` and
`inProgress = 0`; and after the delayed reset the snapshot is all zeros. -/
theorem generateBatch_progress (keys : List (List Char)) (active : Nat)
    (rowsToGenerate : List (ImageRow × (Nat → CallOutcome)))
    (hkeys : keys ≠ []) (hrows : rowsToGenerate ≠ []) :
    ∃ result, generateBatch keys active rowsToGenerate = some result
      ∧ result.progressTrace.head? = some
          { total := rowsToGenerate.length, completed := 0, failed := 0,
            inProgress := rowsToGenerate.length }
      ∧ result.progressTrace.length = rowsToGenerate.length + 1
      ∧ List.Chain' progressStep result.progressTrace
      ∧ result.progressTrace.getLast? = some result.finalProgress
      ∧ result.finalProgress.total = rowsToGenerate.length
      ∧ result.finalProgress.completed + result.finalProgress.failed
          = rowsToGenerate.length
      ∧ result.finalProgress.inProgress = 0
      ∧ result.progressAfterDelay
          = { total := 0, completed := 0, failed := 0, inProgress := 0 } := by
  have hk : ¬(keys.length = 0) := by
    simp only [List.length_eq_zero]
    exact hkeys
  have hr : ¬(rowsToGenerate.length = 0) := by
    simp only [List.length_eq_zero]
    exact hrows
  obtain ⟨ihlen, ihchain, ihlast, ihtotal, ihsum, ihin⟩ :=
    runRows_progress keys rowsToGenerate active
      { total := rowsToGenerate.length, completed := 0, failed := 0,
        inProgress := rowsToGenerate.length } rfl
  rw [generateBatch, if_neg hk, if_neg hr]
  refine ⟨_, rfl, rfl, ?_, ihchain, ihlast, ihtotal, by simpa using ihsum, ihin, rfl⟩
  simp [ihlen]

/-- Witness for C4: a two-row batch (one success, one failure) ends with
`completed + failed = total`, `inProgress = 0`, and a zeroed snapshot
after the delay. -/
theorem generateBatch_progress_witness :
    ∃ result, generateBatch c4Keys 0 c4Pairs = some result
      ∧ result.finalProgress.completed + result.finalProgress.failed
          = c4Pairs.length
      ∧ result.finalProgress.inProgress = 0
      ∧ result.progressAfterDelay
          = { total := 0, completed := 0, failed := 0, inProgress := 0 } := by
  obtain ⟨result, h1, _, _, _, _, _, h7, h8, h9⟩ :=
    generateBatch_progress c4Keys 0 c4Pairs (by decide) (List.cons_ne_nil _ _)
  exact ⟨result, h1, h7, h8, h9⟩

/-- C9 counterexample, two divergences from the claim.  (1) Ranking: with
a capable non-gemini model listed before a capable gemini model (neither
matching flash/pro), the claim's "any remaining capable model in listing
order" picks the first-listed `text-bison-001`, but the code's third tier
is `/gemini/i`, so it picks `gemini-1.0-ultra`.  (2) Retry: when the
v1beta listing fails with a plain server error (not transport/auth), the
claim says the failure propagates, but the code retries under v1 and
succeeds. -/
theorem resolveModel_counterexample :
    resolveModel c9Disc = Except.ok
        { modelName := "gemini-1.0-ultra".toList
          modelDisplayName := "Gemini Ultra".toList
          apiVersion := ApiVariant.v1beta }
      ∧ findBestModelClaim c9Models = some bisonModel
      ∧ bisonModel.name = "text-bison-001".toList
      ∧ resolveModel c9DiscFail = Except.ok
          { modelName := "gemini-1.0-ultra".toList
            modelDisplayName := "Gemini Ultra".toList
            apiVersion := ApiVariant.v1beta } := by
  refine ⟨?_, ?_, rfl, ?_⟩ <;> rfl

theorem modelTier_of_flash {m : GeminiModel} (h : flashTest m.name = true) :
    modelTier m = 0 := by
  rw [modelTier, if_pos h]

theorem one_le_modelTier {m : GeminiModel} (h : flashTest m.name = false) :
    1 ≤ modelTier m := by
  rw [modelTier, if_neg (by rw [h]; exact Bool.false_ne_true)]
  split
  · omega
  · split <;> omega

theorem modelTier_of_pro {m : GeminiModel} (h1 : flashTest m.name = false)
    (h2 : proTest m.name = true) : modelTier m = 1 := by
  rw [modelTier, if_neg (by rw [h1]; exact Bool.false_ne_true), if_pos h2]

theorem two_le_modelTier {m : GeminiModel} (h1 : flashTest m.name = false)
    (h2 : proTest m.name = false) : 2 ≤ modelTier m := by
  rw [modelTier, if_neg (by rw [h1]; exact Bool.false_ne_true),
    if_neg (by rw [h2]; exact Bool.false_ne_true)]
  split <;> omega

theorem modelTier_of_gemini {m : GeminiModel} (h1 : flashTest m.name = false)
    (h2 : proTest m.name = false) (h3 : geminiTest m.name = true) :
    modelTier m = 2 := by
  rw [modelTier, if_neg (by rw [h1]; exact Bool.false_ne_true),
    if_neg (by rw [h2]; exact Bool.false_ne_true), if_pos h3]

theorem modelTier_of_other {m : GeminiModel} (h1 : flashTest m.name = false)
    (h2 : proTest m.name = false) (h3 : geminiTest m.name = false) :
    modelTier m = 3 := by
  rw [modelTier, if_neg (by rw [h1]; exact Bool.false_ne_true),
    if_neg (by rw [h2]; exact Bool.false_ne_true),
    if_neg (by rw [h3]; exact Bool.false_ne_true)]

theorem findBestModel_ranking (ms : List GeminiModel) :
    (ms.filter supportsGenerate = [] → findBestModel ms = none)
      ∧ ∀ best, findBestModel ms = some best →
          best.2 = ApiVariant.v1beta
            ∧ ∃ pre post, ms.filter supportsGenerate = pre ++ best.1 :: post
                ∧ (∀ m ∈ ms.filter supportsGenerate, modelTier best.1 ≤ modelTier m)
                ∧ (∀ m ∈ pre, modelTier best.1 < modelTier m) := by
  constructor
  · intro h
    simp [findBestModel, h]
  · intro best hbest
    simp only [findBestModel] at hbest
    split at hbest
    · exact absurd hbest (by simp)
    · rename_i hne
      split at hbest
      · rename_i m hf
        rw [Option.some.injEq] at hbest
        subst hbest
        obtain ⟨hp, pre, post, hS, hpre⟩ := List.find?_eq_some.mp hf
        refine ⟨ite_self _, pre, post, hS, ?_, ?_⟩
        · intro m2 _
          rw [modelTier_of_flash hp]
          exact Nat.zero_le _
        · intro m2 hm2
          rw [modelTier_of_flash hp]
          have := hpre m2 hm2
          simp only [Bool.not_eq_eq_eq_not, Bool.not_true] at this
          exact Nat.lt_of_lt_of_le Nat.zero_lt_one (one_le_modelTier this)
      · rename_i hfnone
        have hallf : ∀ x ∈ ms.filter supportsGenerate, flashTest x.name = false := by
          intro x hx
          have := List.find?_eq_none.mp hfnone x hx
          exact Bool.not_eq_true _ ▸ (by simpa using this)
        split at hbest
        · rename_i m hf
          rw [Option.some.injEq] at hbest
          subst hbest
          obtain ⟨hp, pre, post, hS, hpre⟩ := List.find?_eq_some.mp hf
          have hmS : m ∈ ms.filter supportsGenerate := by
            rw [hS]
            exact List.mem_append_right pre (List.mem_cons_self m post)
          have htier : modelTier m = 1 := modelTier_of_pro (hallf m hmS) hp
          refine ⟨ite_self _, pre, post, hS, ?_, ?_⟩
          · intro m2 hm2
            rw [htier]
            exact one_le_modelTier (hallf m2 hm2)
          · intro m2 hm2
            have hm2S : m2 ∈ ms.filter supportsGenerate := by
              rw [hS]
              exact List.mem_append_left _ hm2
            have := hpre m2 hm2
            simp only [Bool.not_eq_eq_eq_not, Bool.not_true] at this
            rw [htier]
            exact Nat.lt_of_lt_of_le Nat.one_lt_two
              (two_le_modelTier (hallf m2 hm2S) this)
        · rename_i hpnone
          have hallp : ∀ x ∈ ms.filter supportsGenerate, proTest x.name = false := by
            intro x hx
            have := List.find?_eq_none.mp hpnone x hx
            exact Bool.not_eq_true _ ▸ (by simpa using this)
          split at hbest
          · rename_i m hf
            rw [Option.some.injEq] at hbest
            subst hbest
            obtain ⟨hp, pre, post, hS, hpre⟩ := List.find?_eq_some.mp hf
            have hmS : m ∈ ms.filter supportsGenerate := by
              rw [hS]
              exact List.mem_append_right pre (List.mem_cons_self m post)
            have htier : modelTier m = 2 :=
              modelTier_of_gemini (hallf m hmS) (hallp m hmS) hp
            refine ⟨ite_self _, pre, post, hS, ?_, ?_⟩
            · intro m2 hm2
              rw [htier]
              exact two_le_modelTier (hallf m2 hm2) (hallp m2 hm2)
            · intro m2 hm2
              have hm2S : m2 ∈ ms.filter supportsGenerate := by
                rw [hS]
                exact List.mem_append_left _ hm2
              have := hpre m2 hm2
              simp only [Bool.not_eq_eq_eq_not, Bool.not_true] at this
              rw [htier, modelTier_of_other (hallf m2 hm2S) (hallp m2 hm2S) this]
              omega
          · rename_i hgnone
            have hallg : ∀ x ∈ ms.filter supportsGenerate,
                geminiTest x.name = false := by
              intro x hx
              have := List.find?_eq_none.mp hgnone x hx
              exact Bool.not_eq_true _ ▸ (by simpa using this)
            cases hScases : ms.filter supportsGenerate with
            | nil =>
              rw [hScases] at hne
              exact absurd rfl hne
            | cons m rest =>
              rw [hScases] at hbest
              simp only [List.head?_cons] at hbest
              have hbest2 : (m, ApiVariant.v1beta) = best := Option.some.inj hbest
              subst hbest2
              have hmS : m ∈ ms.filter supportsGenerate := by
                rw [hScases]
                exact List.mem_cons_self m rest
              have htier : modelTier m = 3 :=
                modelTier_of_other (hallf m hmS) (hallp m hmS) (hallg m hmS)
              refine ⟨rfl, [], rest, rfl, ?_, by simp⟩
              intro m2 hm2
              have hm2S : m2 ∈ ms.filter supportsGenerate := by
                rw [hScases]
                exact hm2
              show modelTier m ≤ modelTier m2
              rw [htier,
                modelTier_of_other (hallf m2 hm2S) (hallp m2 hm2S) (hallg m2 hm2S)]

theorem isPrefixOf_append_self (l r : List Char) : l.isPrefixOf (l ++ r) = true := by
  induction l with
  | nil => simp
  | cons c cs ih => simp [List.isPrefixOf, ih]

/-- C9 amended: `resolveModel` queries the listing under v1beta first and
falls back to v1 on ANY v1beta failure — not only transport/auth — and
also when the v1beta listing succeeds but contains no capable model; a v1
failure propagates, and a no-capable-model outcome under both variants
yields the no-model-available error.  The chosen model is the first
capable model of the best available tier in listing order, where the
tiers are: gemini-flash pattern, then gemini-pro pattern, then any model
whose name contains `gemini`, then any remaining capable model.  The
`models/` namespace prefix is stripped from the chosen identifier. -/
theorem resolveModel_spec :
    (∀ disc ms best, disc ApiVariant.v1beta = Except.ok ms →
        findBestModel ms = some best →
        resolveModel disc = Except.ok (mkResult best))
      ∧ (∀ disc e, disc ApiVariant.v1beta = Except.error e →
          resolveModel disc = resolveV1 disc)
      ∧ (∀ disc ms, disc ApiVariant.v1beta = Except.ok ms →
          findBestModel ms = none →
          resolveModel disc = resolveV1 disc)
      ∧ (∀ disc ms best, disc ApiVariant.v1 = Except.ok ms →
          findBestModel ms = some best →
          resolveV1 disc = Except.ok (mkResult best))
      ∧ (∀ disc ms, disc ApiVariant.v1 = Except.ok ms →
          findBestModel ms = none →
          resolveV1 disc
            = Except.error "No suitable model found for this API key".toList)
      ∧ (∀ disc e, disc ApiVariant.v1 = Except.error e →
          resolveV1 disc = Except.error e)
      ∧ (∀ best, (mkResult best).modelName = stripModelsNamespace best.1.name)
      ∧ (∀ rest, stripModelsNamespace ("models/".toList ++ rest) = rest)
      ∧ (∀ name2, "models/".toList.isPrefixOf name2 = false →
          stripModelsNamespace name2 = name2)
      ∧ (∀ ms, (ms.filter supportsGenerate = [] → findBestModel ms = none)
          ∧ ∀ best, findBestModel ms = some best →
              best.2 = ApiVariant.v1beta
                ∧ ∃ pre post, ms.filter supportsGenerate = pre ++ best.1 :: post
                    ∧ (∀ m ∈ ms.filter supportsGenerate,
                        modelTier best.1 ≤ modelTier m)
                    ∧ (∀ m ∈ pre, modelTier best.1 < modelTier m)) := by
  refine ⟨?_, ?_, ?_, ?_, ?_, ?_, fun best => rfl, ?_, ?_, findBestModel_ranking⟩
  · intro disc ms best h1 h2
    simp only [resolveModel, h1, h2]
  · intro disc e h
    simp only [resolveModel, h]
  · intro disc ms h1 h2
    simp only [resolveModel, h1, h2]
  · intro disc ms best h1 h2
    simp only [resolveV1, h1, h2]
  · intro disc ms h1 h2
    simp only [resolveV1, h1, h2]
  · intro disc e h
    simp only [resolveV1, h]
  · intro rest
    rw [stripModelsNamespace,
      if_pos (isPrefixOf_append_self "models/".toList rest),
      show (7 : Nat) = ("models/".toList).length from rfl, List.drop_left]
  · intro name2 h
    rw [stripModelsNamespace, if_neg (by rw [h]; exact Bool.false_ne_true)]

/-- Witness for C9 (amended): a v1beta listing containing a capable flash
model resolves to it, with the `models/` prefix stripped. -/
theorem resolveModel_spec_witness :
    resolveModel c9wDisc
      = Except.ok (mkResult (c9FlashModel, ApiVariant.v1beta)) :=
  resolveModel_spec.1 c9wDisc [c9FlashModel] (c9FlashModel, ApiVariant.v1beta)
    rfl (by rfl)

end CsvMeta
